import Mathlib

/-!
Verification of the meeting-transcriber audio core.

Shallow embedding of `src/backend/audio/timeline.py`, `processor.py`,
`constants.py` and the sample-rate probing logic of `windows_recorder.py`.
Audio buffers of int16 samples are `List Int`; wall-clock timestamps and
durations are `ℚ`; float32 sample processing is modelled over `ℝ`.
-/

namespace MeetingTranscriber

/-! ## Constants (from `src/backend/audio/constants.py`) -/

/-- `COMMON_SAMPLE_RATES = [48000, 44100, 32000, 16000, 8000]` -/
def COMMON_SAMPLE_RATES : List Nat := [48000, 44100, 32000, 16000, 8000]

/-- `MAX_SILENCE_CHUNK_SECONDS = 10` -/
def MAX_SILENCE_CHUNK_SECONDS : Nat := 10

/-- `GAP_THRESHOLD_SECONDS = 0.1` -/
def GAP_THRESHOLD_SECONDS : ℚ := 1 / 10

/-! ## Timeline reconstruction (from `src/backend/audio/timeline.py`)

`reconstruct_desktop_timeline` builds the output incrementally as a list of
chunks (`output_chunks` in the source).  Desktop frames are `(timestamp,
samples)` pairs; mic frames enter only through their byte counts, so they are
modelled as a list of byte lengths. -/

/-- Loop state of `reconstruct_desktop_timeline`: `output_chunks`,
`current_sample_position`, `gap_count`, `total_gap_duration`, `skipped_frames`. -/
structure ReconState where
  chunks : List (List Int)
  pos : Nat
  gapCount : Nat
  totalGapDuration : ℚ
  skipped : Nat
  deriving DecidableEq

def initReconState : ReconState := ⟨[], 0, 0, 0, 0⟩

/-- `_append_silence_chunked`, as the list of zero-chunks it appends.
`while remaining > 0: chunk_size = min(remaining, max_chunk_size); append zeros`.
The source loops forever when `max_chunk_size <= 0` and `num_samples > 0`;
that case is guarded off here (the guard returns `[]`) and every theorem
about it assumes `1 ≤ maxChunk`. -/
def silenceChunks (maxChunk : Nat) (num : Nat) : List (List Int) :=
  if h : num = 0 ∨ maxChunk = 0 then []
  else List.replicate (min num maxChunk) (0 : Int) :: silenceChunks maxChunk (num - min num maxChunk)
termination_by num
decreasing_by
  push_neg at h
  have h1 : 0 < num := Nat.pos_of_ne_zero h.1
  have h2 : 0 < maxChunk := Nat.pos_of_ne_zero h.2
  have h3 : 0 < min num maxChunk := lt_min h1 h2
  omega

/-- `_append_silence_chunked(chunks, num_samples, max_chunk_size)` -/
def appendSilenceChunked (chunks : List (List Int)) (numSamples maxChunk : Nat) : List (List Int) :=
  chunks ++ silenceChunks maxChunk numSamples

/-- The gap-insertion block of the reconstruction loop (timeline.py lines
113-125): if the frame's target position is ahead of the current position,
insert silence in chunks, advance the position, and count the gap when its
duration exceeds `GAP_THRESHOLD_SECONDS`. -/
def gapStep (lr lc maxChunk : Nat) (tp : Nat) (st : ReconState) : ReconState :=
  if st.pos < tp then
    let gapSamples := tp - st.pos
    let gapDuration : ℚ := (gapSamples : ℚ) / (lr : ℚ) / (lc : ℚ)
    { chunks := appendSilenceChunked st.chunks gapSamples maxChunk
      pos := tp
      gapCount := if GAP_THRESHOLD_SECONDS < gapDuration then st.gapCount + 1 else st.gapCount
      totalGapDuration :=
        if GAP_THRESHOLD_SECONDS < gapDuration then st.totalGapDuration + gapDuration
        else st.totalGapDuration
      skipped := st.skipped }
  else st

/-- The frame-append block of the reconstruction loop (timeline.py lines
127-137): break (`true`) when `remaining_space <= 0`, else trim the frame to
the remaining space and append it. -/
def placeFrame (target : Nat) (fs : List Int) (st : ReconState) : ReconState × Bool :=
  if target ≤ st.pos then (st, true)
  else
    let remaining := target - st.pos
    let fs2 := if remaining < fs.length then fs.take remaining else fs
    ({ st with chunks := st.chunks ++ [fs2], pos := st.pos + fs2.length }, false)

/-- One frame's gap-then-append processing. -/
def frameStep (lr lc target maxChunk : Nat) (tp : Nat) (fs : List Int) (st : ReconState) :
    ReconState × Bool :=
  placeFrame target fs (gapStep lr lc maxChunk tp st)

/-- The `for timestamp, frame_data in desktop_frames` loop of
`reconstruct_desktop_timeline`.  `int(time_offset * rate * channels)`
truncates toward zero; the offset is nonnegative on this path, so it is
`Nat.floor`. -/
def reconLoop (refTime : ℚ) (lr lc target maxChunk : Nat) :
    List (ℚ × List Int) → ReconState → ReconState
  | [], st => st
  | (t, d) :: rest, st =>
    let offset := t - refTime
    if offset < 0 then
      reconLoop refTime lr lc target maxChunk rest { st with skipped := st.skipped + 1 }
    else
      let tp := ⌊offset * (lr : ℚ) * (lc : ℚ)⌋₊
      if tp < st.pos then
        let ov := st.pos - tp
        if d.length ≤ ov then
          reconLoop refTime lr lc target maxChunk rest { st with skipped := st.skipped + 1 }
        else
          match frameStep lr lc target maxChunk st.pos (d.drop ov) st with
          | (st2, true) => st2
          | (st2, false) => reconLoop refTime lr lc target maxChunk rest st2
      else
        match frameStep lr lc target maxChunk tp d st with
        | (st2, true) => st2
        | (st2, false) => reconLoop refTime lr lc target maxChunk rest st2

/-- Target length in desktop samples (timeline.py lines 61-66):
`int(mic_duration_seconds * loopback_sample_rate * loopback_channels)` with
`mic_duration_seconds = (total_bytes // 2) / mic_sample_rate / mic_channels`. -/
def micDerivedTargetSamples (micFrames : List Nat) (micRate micCh lr lc : Nat) : Nat :=
  let micTotalBytes := micFrames.sum
  let micTotalSamples := micTotalBytes / 2
  let micDuration : ℚ := (micTotalSamples : ℚ) / (micRate : ℚ) / (micCh : ℚ)
  ⌊micDuration * (lr : ℚ) * (lc : ℚ)⌋₊

/-- `reconstruct_desktop_timeline` (timeline.py lines 15-165).  Mic frames are
given by their byte counts; the result is the concatenation of the collected
chunks, including the warn-path rebuild when no chunks were produced. -/
def reconstruct_desktop_timeline (desktopFrames : List (ℚ × List Int)) (micFrames : List Nat)
    (micFirstCaptureTime : Option ℚ) (micRate micCh lr lc : Nat) : List Int :=
  match desktopFrames with
  | [] => []
  | (t0, _) :: _ =>
    let refTime := micFirstCaptureTime.getD t0
    let target := micDerivedTargetSamples micFrames micRate micCh lr lc
    let maxChunk := lr * lc * MAX_SILENCE_CHUNK_SECONDS
    let final := reconLoop refTime lr lc target maxChunk desktopFrames initReconState
    let final2 :=
      if final.pos < target then
        { final with chunks := appendSilenceChunked final.chunks (target - final.pos) maxChunk }
      else final
    if final2.chunks = [] then (appendSilenceChunked [] target maxChunk).flatten
    else final2.chunks.flatten

/-! ## Length alignment and channel conversion (from `processor.py`) -/

/-- `align_audio_lengths` (processor.py lines 216-238). -/
def align_audio_lengths (audio1 audio2 : List Int) : List Int × List Int :=
  let len1 := audio1.length
  let len2 := audio2.length
  let maxLength := max len1 len2
  let a1 := if len1 < maxLength then audio1 ++ List.replicate (maxLength - len1) (0 : Int) else audio1
  let a2 := if len2 < maxLength then audio2 ++ List.replicate (maxLength - len2) (0 : Int) else audio2
  (a1, a2)

/-- `audio_data.reshape(-1, num_channels)`: split an interleaved buffer into
frames of `n` samples.  numpy raises unless `n` divides the length; theorems
assume divisibility. -/
def reshapeRows (n : Nat) (xs : List Int) : List (List Int) :=
  if h : xs = [] ∨ n = 0 then []
  else xs.take n :: reshapeRows n (xs.drop n)
termination_by xs.length
decreasing_by
  push_neg at h
  have h1 : 0 < xs.length := List.length_pos.mpr h.1
  have h2 : 0 < n := Nat.pos_of_ne_zero h.2
  simp only [List.length_drop]
  omega

/-- `downmix_to_stereo` (processor.py lines 140-166): with more than two
channels, keep only the first two samples of every frame
(`multichannel[:, :2]` then flatten). -/
def downmix_to_stereo (audioData : List Int) (numChannels : Nat) : List Int :=
  if numChannels ≤ 2 then audioData
  else ((reshapeRows numChannels audioData).map (fun row => row.take 2)).flatten

/-- `mono_to_stereo` (processor.py lines 169-179): `np.repeat(audio_data, 2)`. -/
def mono_to_stereo (audioData : List Int) : List Int :=
  audioData.flatMap (fun s => [s, s])

/-! ## Sample-rate probing (from `windows_recorder.py` lines 206-284) -/

/-- One trial-stream attempt during probing: the rate tried, whether
`pa.open` succeeded, and whether the trial stream got closed (the `finally`
block closes it whenever it was opened). -/
structure TrialEvent where
  rate : Nat
  opened : Bool
  closed : Bool
  deriving DecidableEq

/-- The `rates_to_try` list: the device default first, then each of
`COMMON_SAMPLE_RATES` that is not the default and not already listed. -/
def ratesToTry (defaultRate : Nat) : List Nat :=
  COMMON_SAMPLE_RATES.foldl
    (fun acc rate => if rate ≠ defaultRate ∧ rate ∉ acc then acc ++ [rate] else acc)
    [defaultRate]

/-- The `for rate in rates_to_try` loop of `_probe_loopback_sample_rate`.
`supports r` abstracts whether `pa.open` succeeds at rate `r`.  Returns the
trial trace and either the first working `(rate, channels)` or the
`RuntimeError` raised when every candidate fails. -/
def probeGo (supports : Nat → Bool) (channels : Nat) :
    List Nat → List TrialEvent × Except String (Nat × Nat)
  | [] => ([], Except.error "Could not find working sample rate for loopback device")
  | r :: rest =>
    if supports r then ([⟨r, true, true⟩], Except.ok (r, channels))
    else
      let res := probeGo supports channels rest
      (⟨r, false, false⟩ :: res.1, res.2)

/-- `_probe_loopback_sample_rate(device_id, device_info)`, with the device
abstracted to its default rate, channel count and a `supports` predicate. -/
def probe_loopback_sample_rate (supports : Nat → Bool) (defaultRate channels : Nat) :
    List TrialEvent × Except String (Nat × Nat) :=
  probeGo supports channels (ratesToTry defaultRate)

/-! ## Float32 sample processing (from `processor.py`), modelled over `ℝ` -/

noncomputable section

/-- `NORMALIZATION_HIGH_THRESHOLD = 0.7` -/
def NORMALIZATION_HIGH_THRESHOLD : ℝ := 0.7

/-- `NORMALIZATION_LOW_THRESHOLD = 0.1` -/
def NORMALIZATION_LOW_THRESHOLD : ℝ := 0.1

/-- `NORMALIZATION_BOOST_TARGET = 0.3` -/
def NORMALIZATION_BOOST_TARGET : ℝ := 0.3

/-- `SOFT_LIMIT_THRESHOLD = 0.95` -/
def SOFT_LIMIT_THRESHOLD : ℝ := 0.95

/-- `np.max(np.abs(x))`: the peak absolute sample value.  numpy raises on an
empty buffer; here the empty case yields `0`, and since samples enter through
`|·| ≥ 0` the two agree on every nonempty buffer. -/
def maxAbs (xs : List ℝ) : ℝ := (xs.map (fun x => |x|)).foldr max 0

/-- `.astype(np.int16)` on a float value: truncation toward zero. -/
def truncToInt (y : ℝ) : Int := if 0 ≤ y then ⌊y⌋ else -⌊-y⌋

/-- Step 1 of `_process_channel`: `channel_data - np.mean(channel_data)`. -/
def dcRemove (channelData : List ℝ) : List ℝ :=
  let m := channelData.sum / (channelData.length : ℝ)
  channelData.map (fun x => x - m)

/-- Step 2 of `_process_channel` (processor.py lines 120-129): scale down to
peak `0.7` when the peak exceeds `0.7`; scale up to peak `0.3` when
`0 < peak < 0.1`; otherwise leave the channel unchanged. -/
def normalizeChannel (channelData : List ℝ) : List ℝ :=
  let peak := maxAbs channelData
  if NORMALIZATION_HIGH_THRESHOLD < peak then
    channelData.map (fun x => x * (NORMALIZATION_HIGH_THRESHOLD / peak))
  else if 0 < peak ∧ peak < NORMALIZATION_LOW_THRESHOLD then
    channelData.map (fun x => x * (NORMALIZATION_BOOST_TARGET / peak))
  else channelData

/-- Step 3 of `_process_channel` (processor.py lines 131-135): apply
`tanh(x * 0.9) * 0.85` exactly when the absolute max exceeds `0.95`. -/
def softLimit (channelData : List ℝ) : List ℝ :=
  if SOFT_LIMIT_THRESHOLD < maxAbs channelData then
    channelData.map (fun x => Real.tanh (x * 0.9) * 0.85)
  else channelData

/-- `_process_channel` (processor.py lines 102-137). -/
def processChannel (channelData : List ℝ) : List ℝ :=
  softLimit (normalizeChannel (dcRemove channelData))

/-- Elements at even indices: column 0 of `reshape(-1, 2)`. -/
def evensIdx : List ℝ → List ℝ
  | [] => []
  | [a] => [a]
  | a :: _ :: rest => a :: evensIdx rest

/-- Elements at odd indices: column 1 of `reshape(-1, 2)`. -/
def oddsIdx : List ℝ → List ℝ
  | [] => []
  | [_] => []
  | _ :: b :: rest => b :: oddsIdx rest

/-- `np.column_stack((l, r)).flatten()`: re-interleave two channels. -/
def interleave : List ℝ → List ℝ → List ℝ
  | a :: as, b :: bs => a :: b :: interleave as bs
  | _, _ => []

/-- `enhance_microphone` (processor.py lines 50-99).  `sampleRate` is unused
by the source as well ("for future use"). -/
def enhance_microphone (audioData : List Int) (sampleRate : Nat) (targetChannels : Nat) :
    List Int :=
  if audioData.length = 0 then audioData
  else
    let audioFloat := audioData.map (fun (s : Int) => (s : ℝ) / 32768)
    let audioProcessed :=
      if targetChannels = 2 ∧ 2 ≤ audioFloat.length then
        let evenFloat := if audioFloat.length % 2 ≠ 0 then audioFloat.dropLast else audioFloat
        interleave (processChannel (evensIdx evenFloat)) (processChannel (oddsIdx evenFloat))
      else processChannel audioFloat
    audioProcessed.map (fun x => truncToInt (x * 32767))

/-- The volume-scaled, mic-boosted sum built by `mix_audio` before limiting
(processor.py lines 202-206). -/
def mixedSignal (micAudio desktopAudio : List Int) (micVolume desktopVolume micBoost : ℝ) :
    List ℝ :=
  let micFloat := micAudio.map (fun (s : Int) => (s : ℝ) / 32768 * micVolume * micBoost)
  let desktopFloat := desktopAudio.map (fun (s : Int) => (s : ℝ) / 32768 * desktopVolume)
  List.zipWith (fun a b => a + b) micFloat desktopFloat

/-- `mix_audio` (processor.py lines 182-213). -/
def mix_audio (micAudio desktopAudio : List Int) (micVolume desktopVolume micBoost : ℝ) :
    List Int :=
  let mixed := mixedSignal micAudio desktopAudio micVolume desktopVolume micBoost
  let limited := if 1 < maxAbs mixed then mixed.map (fun x => Real.tanh (x * 0.85)) else mixed
  limited.map (fun x => truncToInt (x * 32767))

/-- Follows the spec's downmix words, for comparison with the source's
`downmix_to_stereo`: "center channel attenuated ~-3dB (0.707) split equally
to L/R, any additional surround channels attenuated ~-6dB (0.5) split
equally", on one interleaved frame `[FL, FR, C, surround...]`. -/
def downmixSpecFrame (frame : List ℚ) : List ℚ :=
  let fl := frame.getD 0 0
  let fr := frame.getD 1 0
  let c := frame.getD 2 0
  let surround := (frame.drop 3).sum
  [fl + (707 / 1000) * c + (1 / 2) * surround, fr + (707 / 1000) * c + (1 / 2) * surround]

end

/-! ## Helper lemmas -/

theorem silenceChunks_flatten (maxChunk : Nat) (hmc : 1 ≤ maxChunk) (num : Nat) :
    (silenceChunks maxChunk num).flatten = List.replicate num (0 : Int) := by
  induction num using Nat.strong_induction_on with
  | _ num ih =>
    rw [silenceChunks]
    split_ifs with h
    · rcases h with h | h
      · subst h; simp
      · omega
    · push_neg at h
      have h1 : 0 < num := Nat.pos_of_ne_zero h.1
      have hmin : 0 < min num maxChunk := lt_min h1 (by omega)
      rw [List.flatten_cons, ih (num - min num maxChunk) (by omega), ← List.replicate_add]
      congr 1
      omega

theorem silenceChunks_mem (maxChunk num : Nat) :
    ∀ c ∈ silenceChunks maxChunk num, ∃ k, c = List.replicate k (0 : Int) ∧ k ≤ maxChunk := by
  induction num using Nat.strong_induction_on with
  | _ num ih =>
    rw [silenceChunks]
    split_ifs with h
    · intro c hc; simp at hc
    · push_neg at h
      have h1 : 0 < num := Nat.pos_of_ne_zero h.1
      intro c hc
      rcases List.mem_cons.1 hc with hc | hc
      · exact ⟨min num maxChunk, hc, min_le_right _ _⟩
      · exact ih (num - min num maxChunk) (by omega) c hc

theorem silenceChunks_length_sum (maxChunk : Nat) (hmc : 1 ≤ maxChunk) (num : Nat) :
    ((silenceChunks maxChunk num).map List.length).sum = num := by
  have h := congrArg List.length (silenceChunks_flatten maxChunk hmc num)
  simpa using h

theorem pad_if_shorter (a : List Int) (m : Nat) (h : a.length ≤ m) :
    (if a.length < m then a ++ List.replicate (m - a.length) (0 : Int) else a)
      = a ++ List.replicate (m - a.length) 0 := by
  split_ifs with hlt
  · rfl
  · have hm : m = a.length := by omega
    simp [hm]

/-! ## Claims -/

/-- C8: for every choice of the non-frame arguments,
`reconstruct_desktop_timeline` applied to an empty desktop frame list returns
an empty buffer immediately, raising no error. -/
theorem reconstruct_empty_frames (micFrames : List Nat) (micFirstCaptureTime : Option ℚ)
    (micRate micCh lr lc : Nat) :
    reconstruct_desktop_timeline [] micFrames micFirstCaptureTime micRate micCh lr lc = [] :=
  rfl

/-- C2: `align_audio_lengths` returns two buffers both of length
`max (len a) (len b)`; each returned buffer is the original followed by zero
samples, so the longer buffer is returned intact. -/
theorem align_audio_lengths_pads_to_max (audio1 audio2 : List Int) :
    (align_audio_lengths audio1 audio2).1
        = audio1 ++ List.replicate (max audio1.length audio2.length - audio1.length) 0
    ∧ (align_audio_lengths audio1 audio2).2
        = audio2 ++ List.replicate (max audio1.length audio2.length - audio2.length) 0
    ∧ (align_audio_lengths audio1 audio2).1.length = max audio1.length audio2.length
    ∧ (align_audio_lengths audio1 audio2).2.length = max audio1.length audio2.length := by
  have h1 := pad_if_shorter audio1 (max audio1.length audio2.length) (le_max_left _ _)
  have h2 := pad_if_shorter audio2 (max audio1.length audio2.length) (le_max_right _ _)
  refine ⟨?_, ?_, ?_, ?_⟩ <;>
    simp only [align_audio_lengths, h1, h2, List.length_append, List.length_replicate] <;>
    omega

/-- C9: for every requested silence length `num` and chunk bound
`maxChunk ≥ 1`, chunked silence insertion terminates and appends zero-filled
chunks, each of length at most `maxChunk`, whose lengths sum to exactly
`num`. -/
theorem silence_chunks_bounded_and_exact (maxChunk num : Nat) (hmc : 1 ≤ maxChunk) :
    (∀ c ∈ silenceChunks maxChunk num, ∃ k, c = List.replicate k (0 : Int) ∧ k ≤ maxChunk)
    ∧ ((silenceChunks maxChunk num).map List.length).sum = num :=
  ⟨silenceChunks_mem maxChunk num, silenceChunks_length_sum maxChunk hmc num⟩

/-- Witness for C9 at `maxChunk = 10`, `num = 25`. -/
theorem silence_chunks_bounded_and_exact_witness :
    ((silenceChunks 10 25).map List.length).sum = 25 :=
  (silence_chunks_bounded_and_exact 10 25 (by decide)).2

/-- C6: whenever a frame's target position is ahead of the current position,
a silence span of exactly `tp - st.pos` samples is inserted regardless of the
span's size, but the gap counter is incremented exactly when the span's
duration exceeds the 0.1-second jitter threshold. -/
theorem gapStep_inserts_silence_counts_large_gaps (lr lc maxChunk tp : Nat) (st : ReconState)
    (hpos : st.pos < tp) (hmc : 1 ≤ maxChunk) :
    ((gapStep lr lc maxChunk tp st).chunks.flatten
        = st.chunks.flatten ++ List.replicate (tp - st.pos) 0)
    ∧ (gapStep lr lc maxChunk tp st).pos = tp
    ∧ ((gapStep lr lc maxChunk tp st).gapCount
        = if GAP_THRESHOLD_SECONDS < ((tp - st.pos : Nat) : ℚ) / (lr : ℚ) / (lc : ℚ)
          then st.gapCount + 1 else st.gapCount) := by
  rw [gapStep]
  rw [if_pos hpos]
  refine ⟨?_, rfl, rfl⟩
  simp only [appendSilenceChunked, List.flatten_append]
  rw [silenceChunks_flatten maxChunk hmc (tp - st.pos)]

/-- Witness for C6 at a 5-sample gap, 1 Hz mono, chunk bound 10. -/
theorem gapStep_inserts_silence_counts_large_gaps_witness :
    (gapStep 1 1 10 5 initReconState).pos = 5 :=
  (gapStep_inserts_silence_counts_large_gaps 1 1 10 5 initReconState (by decide)
    (by decide)).2.1

theorem probeGo_error_iff (supports : Nat → Bool) (ch : Nat) (L : List Nat) :
    (∃ e, (probeGo supports ch L).2 = Except.error e) ↔ ∀ r ∈ L, supports r = false := by
  induction L with
  | nil => simp [probeGo]
  | cons r rest ih =>
    by_cases h : supports r
    · simp [probeGo, h]
    · simp only [Bool.not_eq_true] at h
      simp [probeGo, h, ih]

theorem probeGo_ok_iff (supports : Nat → Bool) (ch : Nat) (L : List Nat) (p : Nat × Nat) :
    (probeGo supports ch L).2 = Except.ok p
      ↔ (L.find? (fun r => supports r) = some p.1 ∧ p.2 = ch) := by
  induction L with
  | nil => simp [probeGo]
  | cons r rest ih =>
    by_cases h : supports r
    · simp only [probeGo, h, if_pos, List.find?_cons_of_pos _ h]
      constructor
      · intro hp
        cases hp
        exact ⟨rfl, rfl⟩
      · rintro ⟨h1, h2⟩
        cases h1
        obtain ⟨p1, p2⟩ := p
        simp at h2 ⊢
        omega
    · rw [probeGo]
      simp only [Bool.not_eq_true] at h
      simp [h, ih]

theorem probeGo_trace (supports : Nat → Bool) (ch : Nat) (L : List Nat) :
    (probeGo supports ch L).1.map TrialEvent.rate
      = L.takeWhile (fun r => !supports r) ++ (L.dropWhile (fun r => !supports r)).take 1 := by
  induction L with
  | nil => simp [probeGo]
  | cons r rest ih =>
    by_cases h : supports r
    · simp [probeGo, h, List.takeWhile_cons, List.dropWhile_cons]
    · simp only [Bool.not_eq_true] at h
      simp [probeGo, h, List.takeWhile_cons, List.dropWhile_cons, ih]

theorem probeGo_closed (supports : Nat → Bool) (ch : Nat) (L : List Nat) :
    ∀ e ∈ (probeGo supports ch L).1, e.closed = e.opened := by
  induction L with
  | nil => simp [probeGo]
  | cons r rest ih =>
    by_cases h : supports r
    · simp [probeGo, h]
    · simp only [Bool.not_eq_true] at h
      intro e he
      rw [probeGo] at he
      simp only [h] at he
      rcases List.mem_cons.1 he with he | he
      · subst he; rfl
      · exact ih e he

theorem ratesToTry_eq (d : Nat) :
    ratesToTry d = d :: COMMON_SAMPLE_RATES.filter (fun r => r ≠ d) := by
  unfold ratesToTry COMMON_SAMPLE_RATES
  by_cases h1 : 48000 = d <;> by_cases h2 : 44100 = d <;> by_cases h3 : 32000 = d <;>
    by_cases h4 : 16000 = d <;> by_cases h5 : 8000 = d <;>
    simp_all

/-- C7: sample-rate negotiation probes the device default rate first, then
48000, 44100, 32000, 16000, 8000 in that order (skipping duplicates of the
default); every opened trial stream is closed; the first rate that opens
successfully becomes the native rate; the probe fails with the
unsupported-sample-rate error if and only if every candidate rate fails. -/
theorem probe_negotiation_first_success (supports : Nat → Bool) (defaultRate channels : Nat) :
    ratesToTry defaultRate = defaultRate :: COMMON_SAMPLE_RATES.filter (fun r => r ≠ defaultRate)
    ∧ (∀ p, (probe_loopback_sample_rate supports defaultRate channels).2 = Except.ok p
        ↔ ((ratesToTry defaultRate).find? (fun r => supports r) = some p.1 ∧ p.2 = channels))
    ∧ ((∃ e, (probe_loopback_sample_rate supports defaultRate channels).2 = Except.error e)
        ↔ ∀ r ∈ ratesToTry defaultRate, supports r = false)
    ∧ ((probe_loopback_sample_rate supports defaultRate channels).1.map TrialEvent.rate
        = (ratesToTry defaultRate).takeWhile (fun r => !supports r)
          ++ ((ratesToTry defaultRate).dropWhile (fun r => !supports r)).take 1)
    ∧ (∀ e ∈ (probe_loopback_sample_rate supports defaultRate channels).1,
        e.opened = true → e.closed = true) := by
  refine ⟨ratesToTry_eq defaultRate, ?_, ?_, ?_, ?_⟩
  · intro p
    exact probeGo_ok_iff supports channels (ratesToTry defaultRate) p
  · exact probeGo_error_iff supports channels (ratesToTry defaultRate)
  · exact probeGo_trace supports channels (ratesToTry defaultRate)
  · intro e he hop
    rw [probeGo_closed supports channels (ratesToTry defaultRate) e he, hop]

theorem gapStep_wf (lr lc maxChunk tp : Nat) (st : ReconState) (hmc : 1 ≤ maxChunk)
    (hwf : st.chunks.flatten.length = st.pos) :
    (gapStep lr lc maxChunk tp st).chunks.flatten.length = (gapStep lr lc maxChunk tp st).pos := by
  rw [gapStep]
  split_ifs with h
  · simp only [appendSilenceChunked, List.flatten_append, List.length_append, hwf,
      silenceChunks_flatten maxChunk hmc, List.length_replicate]
    omega
  · exact hwf

theorem placeFrame_wf (target : Nat) (fs : List Int) (st : ReconState)
    (hwf : st.chunks.flatten.length = st.pos) :
    ((placeFrame target fs st).1).chunks.flatten.length = ((placeFrame target fs st).1).pos := by
  rw [placeFrame]
  split_ifs with h
  · exact hwf
  · simp only [List.flatten_append, List.length_append, List.flatten_cons, List.flatten_nil,
      List.append_nil, hwf]

theorem frameStep_wf (lr lc target maxChunk tp : Nat) (fs : List Int) (st : ReconState)
    (hmc : 1 ≤ maxChunk) (hwf : st.chunks.flatten.length = st.pos) :
    ((frameStep lr lc target maxChunk tp fs st).1).chunks.flatten.length
      = ((frameStep lr lc target maxChunk tp fs st).1).pos :=
  placeFrame_wf _ _ _ (gapStep_wf _ _ _ _ _ hmc hwf)

theorem reconLoop_wf (refTime : ℚ) (lr lc target maxChunk : Nat) (hmc : 1 ≤ maxChunk)
    (frames : List (ℚ × List Int)) :
    ∀ st : ReconState, st.chunks.flatten.length = st.pos →
      ((reconLoop refTime lr lc target maxChunk frames st).chunks.flatten.length
        = (reconLoop refTime lr lc target maxChunk frames st).pos) := by
  induction frames with
  | nil => intro st h; simpa [reconLoop] using h
  | cons f rest ih =>
    obtain ⟨t, d⟩ := f
    intro st hwf
    simp only [reconLoop]
    split_ifs with h1 h2 h3
    · exact ih _ hwf
    · exact ih _ hwf
    · cases hfs : frameStep lr lc target maxChunk st.pos
        (d.drop (st.pos - ⌊(t - refTime) * (lr : ℚ) * (lc : ℚ)⌋₊)) st with
      | mk st2 b =>
        have hwf2 := frameStep_wf lr lc target maxChunk st.pos
          (d.drop (st.pos - ⌊(t - refTime) * (lr : ℚ) * (lc : ℚ)⌋₊)) st hmc hwf
        rw [hfs] at hwf2
        cases b
        · exact ih st2 hwf2
        · exact hwf2
    · cases hfs : frameStep lr lc target maxChunk ⌊(t - refTime) * (lr : ℚ) * (lc : ℚ)⌋₊ d st with
      | mk st2 b =>
        have hwf2 := frameStep_wf lr lc target maxChunk
          ⌊(t - refTime) * (lr : ℚ) * (lc : ℚ)⌋₊ d st hmc hwf
        rw [hfs] at hwf2
        cases b
        · exact ih st2 hwf2
        · exact hwf2

theorem gapStep_pos_le (lr lc maxChunk tp target : Nat) (st : ReconState)
    (htp : tp ≤ target) (hst : st.pos ≤ target) :
    (gapStep lr lc maxChunk tp st).pos ≤ target := by
  rw [gapStep]
  split_ifs with h
  · exact htp
  · exact hst

theorem placeFrame_pos_le (target : Nat) (fs : List Int) (st : ReconState)
    (hst : st.pos ≤ target) :
    ((placeFrame target fs st).1).pos ≤ target := by
  rw [placeFrame]
  split_ifs with h
  · exact hst
  · show st.pos + (if target - st.pos < fs.length then fs.take (target - st.pos) else fs).length
      ≤ target
    split_ifs with h2
    · rw [List.length_take]
      omega
    · omega

theorem frameStep_pos_le (lr lc target maxChunk tp : Nat) (fs : List Int) (st : ReconState)
    (htp : tp ≤ target) (hst : st.pos ≤ target) :
    ((frameStep lr lc target maxChunk tp fs st).1).pos ≤ target :=
  placeFrame_pos_le _ _ _ (gapStep_pos_le _ _ _ _ _ _ htp hst)

theorem reconLoop_pos_le (refTime : ℚ) (lr lc target maxChunk : Nat)
    (frames : List (ℚ × List Int))
    (H : ∀ p ∈ frames, ⌊(p.1 - refTime) * (lr : ℚ) * (lc : ℚ)⌋₊ ≤ target) :
    ∀ st : ReconState, st.pos ≤ target →
      (reconLoop refTime lr lc target maxChunk frames st).pos ≤ target := by
  induction frames with
  | nil => intro st h; simpa [reconLoop] using h
  | cons f rest ih =>
    obtain ⟨t, d⟩ := f
    have htp : ⌊(t - refTime) * (lr : ℚ) * (lc : ℚ)⌋₊ ≤ target := H (t, d) (List.mem_cons_self _ _)
    have Hrest : ∀ p ∈ rest, ⌊(p.1 - refTime) * (lr : ℚ) * (lc : ℚ)⌋₊ ≤ target :=
      fun p hp => H p (List.mem_cons_of_mem _ hp)
    intro st hst
    simp only [reconLoop]
    split_ifs with h1 h2 h3
    · exact ih Hrest _ hst
    · exact ih Hrest _ hst
    · cases hfs : frameStep lr lc target maxChunk st.pos
        (d.drop (st.pos - ⌊(t - refTime) * (lr : ℚ) * (lc : ℚ)⌋₊)) st with
      | mk st2 b =>
        have hle := frameStep_pos_le lr lc target maxChunk st.pos
          (d.drop (st.pos - ⌊(t - refTime) * (lr : ℚ) * (lc : ℚ)⌋₊)) st hst hst
        rw [hfs] at hle
        cases b
        · exact ih Hrest st2 hle
        · exact hle
    · cases hfs : frameStep lr lc target maxChunk ⌊(t - refTime) * (lr : ℚ) * (lc : ℚ)⌋₊ d st with
      | mk st2 b =>
        have hle := frameStep_pos_le lr lc target maxChunk
          ⌊(t - refTime) * (lr : ℚ) * (lc : ℚ)⌋₊ d st htp hst
        rw [hfs] at hle
        cases b
        · exact ih Hrest st2 hle
        · exact hle

theorem silenceChunks_ne_nil (maxChunk num : Nat) (hn : num ≠ 0) (hm : maxChunk ≠ 0) :
    silenceChunks maxChunk num ≠ [] := by
  rw [silenceChunks]
  rw [dif_neg (by push_neg; exact ⟨hn, hm⟩)]
  exact List.cons_ne_nil _ _

theorem reconstruct_flatten_length (t0 : ℚ) (d0 : List Int) (rest : List (ℚ × List Int))
    (micFrames : List Nat) (mft : Option ℚ) (micRate micCh lr lc : Nat)
    (hlr : 1 ≤ lr) (hlc : 1 ≤ lc) :
    (reconstruct_desktop_timeline ((t0, d0) :: rest) micFrames mft micRate micCh lr lc).length
      = max (micDerivedTargetSamples micFrames micRate micCh lr lc)
          (reconLoop (mft.getD t0) lr lc (micDerivedTargetSamples micFrames micRate micCh lr lc)
            (lr * lc * MAX_SILENCE_CHUNK_SECONDS) ((t0, d0) :: rest) initReconState).pos := by
  have hmc : 1 ≤ lr * lc * MAX_SILENCE_CHUNK_SECONDS := by
    have h1 : 0 < lr * lc := Nat.mul_pos hlr hlc
    have h2 : 0 < MAX_SILENCE_CHUNK_SECONDS := by norm_num [MAX_SILENCE_CHUNK_SECONDS]
    exact Nat.mul_pos h1 h2
  simp only [reconstruct_desktop_timeline]
  set target := micDerivedTargetSamples micFrames micRate micCh lr lc with htarget
  set maxChunk := lr * lc * MAX_SILENCE_CHUNK_SECONDS with hmaxChunk
  set final := reconLoop (mft.getD t0) lr lc target maxChunk ((t0, d0) :: rest) initReconState
    with hfinal
  have hwf : final.chunks.flatten.length = final.pos :=
    reconLoop_wf (mft.getD t0) lr lc target maxChunk hmc ((t0, d0) :: rest) initReconState rfl
  split_ifs with hlt hnil hnil
  · -- padded, then the padded chunk list claimed empty: impossible
    exfalso
    have hne : silenceChunks maxChunk (target - final.pos) ≠ [] :=
      silenceChunks_ne_nil maxChunk (target - final.pos) (by omega) (by omega)
    have hnil2 : final.chunks ++ silenceChunks maxChunk (target - final.pos) = [] := hnil
    exact hne (List.append_eq_nil.mp hnil2).2
  · -- padded to exactly the target
    simp only [appendSilenceChunked, List.flatten_append, List.length_append, hwf,
      silenceChunks_flatten maxChunk hmc, List.length_replicate]
    omega
  · -- no padding, loop produced no chunks: position 0, so target = 0
    have hpos : final.pos = 0 := by rw [← hwf, hnil]; rfl
    simp only [appendSilenceChunked, List.nil_append, silenceChunks_flatten maxChunk hmc,
      List.length_replicate]
    omega
  · -- no padding needed
    rw [hwf]
    omega

/-- C1 counterexample: with a mic-derived target of 1 sample, a single desktop
frame timestamped 10 seconds after the reference makes the reconstruction
insert 10 samples of gap silence before noticing the target was passed, so the
output has 10 samples — it exceeds the target instead of matching it. -/
theorem reconstruct_exceeds_target_counterexample :
    micDerivedTargetSamples [2] 1 1 1 1 = 1
    ∧ (reconstruct_desktop_timeline [((10 : ℚ), [(5 : Int)])] [2] (some 0) 1 1 1 1).length = 10 := by
  have htar : micDerivedTargetSamples [2] 1 1 1 1 = 1 := by
    norm_num [micDerivedTargetSamples]
  refine ⟨htar, ?_⟩
  have hpos : (reconLoop 0 1 1 1 10 [((10 : ℚ), [(5 : Int)])] initReconState).pos = 10 := by
    norm_num [reconLoop, frameStep, gapStep, placeFrame, initReconState, GAP_THRESHOLD_SECONDS,
      appendSilenceChunked]
  have hlen := reconstruct_flatten_length 10 [5] [] [2] (some 0) 1 1 1 1 (le_refl 1) (le_refl 1)
  rw [htar] at hlen
  simp only [Option.getD_some, MAX_SILENCE_CHUNK_SECONDS] at hlen
  norm_num at hlen
  rw [hpos] at hlen
  simpa using hlen

/-- C1 (amended): for every non-empty desktop frame list (with positive
loopback rate and channel count), the reconstructed buffer's sample count is
at least the mic-derived target; it equals the target exactly whenever every
frame's computed target position is at most the target, the case the claim
describes — a frame placed beyond the target makes the inserted gap silence
overshoot, so the output can exceed the target. -/
theorem reconstruct_length_vs_target (t0 : ℚ) (d0 : List Int) (rest : List (ℚ × List Int))
    (micFrames : List Nat) (mft : Option ℚ) (micRate micCh lr lc : Nat)
    (hlr : 1 ≤ lr) (hlc : 1 ≤ lc) :
    micDerivedTargetSamples micFrames micRate micCh lr lc
        ≤ (reconstruct_desktop_timeline ((t0, d0) :: rest) micFrames mft micRate micCh lr lc).length
    ∧ ((∀ p ∈ (t0, d0) :: rest,
          ⌊(p.1 - mft.getD t0) * (lr : ℚ) * (lc : ℚ)⌋₊
            ≤ micDerivedTargetSamples micFrames micRate micCh lr lc) →
        (reconstruct_desktop_timeline ((t0, d0) :: rest) micFrames mft micRate micCh lr lc).length
          = micDerivedTargetSamples micFrames micRate micCh lr lc) := by
  have hlen := reconstruct_flatten_length t0 d0 rest micFrames mft micRate micCh lr lc hlr hlc
  constructor
  · rw [hlen]
    exact le_max_left _ _
  · intro H
    have hpos := reconLoop_pos_le (mft.getD t0) lr lc
      (micDerivedTargetSamples micFrames micRate micCh lr lc)
      (lr * lc * MAX_SILENCE_CHUNK_SECONDS) ((t0, d0) :: rest) H initReconState (Nat.zero_le _)
    rw [hlen]
    omega

/-- Witness for C1 (amended): a 2-sample frame at the reference time with a
4-sample target is padded to exactly 4 samples. -/
theorem reconstruct_length_vs_target_witness :
    (reconstruct_desktop_timeline [((0 : ℚ), [(1 : Int), 2])] [8] (some 0) 1 1 1 1).length
      = micDerivedTargetSamples [8] 1 1 1 1 :=
  (reconstruct_length_vs_target 0 [1, 2] [] [8] (some 0) 1 1 1 1 (le_refl 1) (le_refl 1)).2
    (by
      intro p hp
      rcases List.mem_singleton.mp hp with rfl
      norm_num [micDerivedTargetSamples])

theorem reshapeRows_flatten_uniform (n : Nat) (hn : 0 < n) (frames : List (List Int))
    (hu : ∀ f ∈ frames, f.length = n) :
    reshapeRows n frames.flatten = frames := by
  induction frames with
  | nil =>
    rw [reshapeRows]
    simp
  | cons f fs ih =>
    have hf : f.length = n := hu f (List.mem_cons_self _ _)
    have hfs : ∀ g ∈ fs, g.length = n := fun g hg => hu g (List.mem_cons_of_mem _ hg)
    have hne : (f :: fs).flatten ≠ [] := by
      simp only [List.flatten_cons]
      intro hcon
      rcases List.append_eq_nil.mp hcon with ⟨h1, _⟩
      rw [h1] at hf
      simp at hf
      omega
    rw [reshapeRows, dif_neg (by push_neg; exact ⟨hne, by omega⟩)]
    simp only [List.flatten_cons]
    rw [← hf, List.take_left, List.drop_left, hf]
    rw [ih hfs]

theorem mono_to_stereo_idx (ys : List Int) :
    ∀ i, (mono_to_stereo ys)[2 * i]? = ys[i]? ∧ (mono_to_stereo ys)[2 * i + 1]? = ys[i]? := by
  induction ys with
  | nil => intro i; simp [mono_to_stereo]
  | cons y ys ih =>
    intro i
    have hms : mono_to_stereo (y :: ys) = y :: y :: mono_to_stereo ys := by
      simp [mono_to_stereo]
    cases i with
    | zero => simp [hms]
    | succ j =>
      have h2 : 2 * (j + 1) = 2 * j + 1 + 1 := by ring
      rw [hms, h2]
      simp only [List.getElem?_cons_succ]
      exact ih j

/-- C3 counterexample: a 3-channel frame whose only nonzero sample is the
center channel downmixes to pure silence — the code keeps just the first two
(front left/right) samples — whereas the claimed 0.707-coefficient downmix of
the same frame is nonzero. -/
theorem downmix_drops_center_counterexample :
    downmix_to_stereo [0, 0, 30000] 3 = [0, 0]
    ∧ downmixSpecFrame [0, 0, 30000] = [21210, 21210]
    ∧ (21210 : ℚ) ≠ 0 := by
  refine ⟨?_, ?_, by norm_num⟩
  · rw [downmix_to_stereo]
    rw [if_neg (by norm_num)]
    rw [reshapeRows]
    rw [dif_neg (by simp)]
    rw [reshapeRows]
    simp
  · norm_num [downmixSpecFrame]

/-- C3 (amended): for every interleaved source with more than 2 channels
(frames of uniform width `n`), downmixing to stereo keeps exactly the first
two samples (front left/right) of every frame and discards the center and
surround channels entirely — no attenuation coefficients are applied; for
every mono source, each sample is duplicated to both output channels
(`out[2i] = out[2i+1] = in[i]`). -/
theorem downmix_keeps_front_pair (frames : List (List Int)) (n : Nat) (hn : 2 < n)
    (hu : ∀ f ∈ frames, f.length = n) :
    downmix_to_stereo frames.flatten n = (frames.map (fun f => f.take 2)).flatten
    ∧ ∀ (ys : List Int) (i : Nat),
        (mono_to_stereo ys)[2 * i]? = ys[i]? ∧ (mono_to_stereo ys)[2 * i + 1]? = ys[i]? := by
  constructor
  · rw [downmix_to_stereo, if_neg (by omega), reshapeRows_flatten_uniform n (by omega) frames hu]
  · exact fun ys i => mono_to_stereo_idx ys i

/-- Witness for C3 (amended) on two 3-channel frames. -/
theorem downmix_keeps_front_pair_witness :
    downmix_to_stereo [1, 2, 3, 4, 5, 6] 3 = [1, 2, 4, 5] := by
  have h := (downmix_keeps_front_pair [[1, 2, 3], [4, 5, 6]] 3 (by decide) (by decide)).1
  simpa using h

theorem dcRemove_length (l : List ℝ) : (dcRemove l).length = l.length := by
  simp [dcRemove]

theorem normalizeChannel_length (l : List ℝ) : (normalizeChannel l).length = l.length := by
  rw [normalizeChannel]
  split_ifs <;> simp

theorem softLimit_length (l : List ℝ) : (softLimit l).length = l.length := by
  rw [softLimit]
  split_ifs <;> simp

theorem processChannel_length (l : List ℝ) : (processChannel l).length = l.length := by
  rw [processChannel, softLimit_length, normalizeChannel_length, dcRemove_length]

theorem evens_odds_length : ∀ (n : Nat) (l : List ℝ), l.length = n →
    (evensIdx l).length = (n + 1) / 2 ∧ (oddsIdx l).length = n / 2 := by
  intro n
  induction n using Nat.strong_induction_on with
  | _ n ih =>
    intro l hl
    cases l with
    | nil =>
      subst hl
      simp [evensIdx, oddsIdx]
    | cons a l2 =>
      cases l2 with
      | nil =>
        subst hl
        simp [evensIdx, oddsIdx]
      | cons b rest =>
        have hlt : rest.length < n := by
          subst hl
          simp
          omega
        have hr := ih rest.length hlt rest rfl
        subst hl
        simp only [evensIdx, oddsIdx, List.length_cons, hr.1, hr.2]
        omega

theorem interleave_length : ∀ (a b : List ℝ), a.length = b.length →
    (interleave a b).length = a.length + b.length := by
  intro a
  induction a with
  | nil =>
    intro b hb
    cases b with
    | nil => simp [interleave]
    | cons y ys => simp at hb
  | cons x xs ih =>
    intro b hb
    cases b with
    | nil => simp at hb
    | cons y ys =>
      simp only [List.length_cons] at hb
      simp only [interleave, List.length_cons, ih ys (by omega)]
      omega

theorem stereo_path_length (l : List ℝ) (he : l.length % 2 = 0) :
    (interleave (processChannel (evensIdx l)) (processChannel (oddsIdx l))).length = l.length := by
  have h := evens_odds_length l.length l rfl
  have h1 : (processChannel (evensIdx l)).length = (l.length + 1) / 2 := by
    rw [processChannel_length, h.1]
  have h2 : (processChannel (oddsIdx l)).length = l.length / 2 := by
    rw [processChannel_length, h.2]
  rw [interleave_length _ _ (by omega), h1, h2]
  omega

/-- C10: with `target_channels = 2`, `enhance_microphone` preserves the sample
count of even-length inputs of length at least 2; it silently drops the final
sample of odd-length inputs of length at least 3; inputs of length 0 or 1 keep
their length (length 1 goes down the mono path). -/
theorem enhance_microphone_length_behavior (audioData : List Int) (sampleRate : Nat) :
    (audioData.length % 2 = 0 → 2 ≤ audioData.length →
        (enhance_microphone audioData sampleRate 2).length = audioData.length)
    ∧ (audioData.length % 2 = 1 → 3 ≤ audioData.length →
        (enhance_microphone audioData sampleRate 2).length = audioData.length - 1)
    ∧ (audioData.length ≤ 1 →
        (enhance_microphone audioData sampleRate 2).length = audioData.length) := by
  refine ⟨?_, ?_, ?_⟩
  · intro hpar hlen
    rw [enhance_microphone, if_neg (by omega)]
    simp only [List.length_map]
    rw [if_pos ⟨trivial, hlen⟩]
    rw [if_neg (by omega)]
    rw [stereo_path_length _ (by simp only [List.length_map]; omega)]
    simp only [List.length_map]
  · intro hpar hlen
    rw [enhance_microphone, if_neg (by omega)]
    simp only [List.length_map]
    rw [if_pos ⟨trivial, by omega⟩]
    rw [if_pos (by omega)]
    rw [stereo_path_length _ (by simp only [List.length_dropLast, List.length_map]; omega)]
    simp only [List.length_dropLast, List.length_map]
  · intro hlen
    rcases Nat.le_one_iff_eq_zero_or_eq_one.mp hlen with h0 | h1
    · rw [enhance_microphone, if_pos h0]
    · rw [enhance_microphone, if_neg (by omega)]
      simp only [List.length_map]
      rw [if_neg (by omega)]
      rw [processChannel_length, List.length_map]

/-- Witness for C10: an odd-length input of 3 samples loses its final
sample, while an even-length input of 4 keeps all 4. -/
theorem enhance_microphone_length_behavior_witness :
    (enhance_microphone [1, 2, 3] 48000 2).length = 2
    ∧ (enhance_microphone [1, 2, 3, 4] 48000 2).length = 4 :=
  ⟨(enhance_microphone_length_behavior [1, 2, 3] 48000).2.1 (by decide) (by decide),
   (enhance_microphone_length_behavior [1, 2, 3, 4] 48000).1 (by decide) (by decide)⟩

theorem maxAbs_nil : maxAbs [] = 0 := rfl

theorem maxAbs_cons (x : ℝ) (xs : List ℝ) : maxAbs (x :: xs) = max |x| (maxAbs xs) := rfl

theorem maxAbs_nonneg (xs : List ℝ) : 0 ≤ maxAbs xs := by
  induction xs with
  | nil => exact le_refl 0
  | cons x xs ih =>
    rw [maxAbs_cons]
    exact le_max_of_le_right ih

theorem maxAbs_map_mul (xs : List ℝ) (c : ℝ) (hc : 0 ≤ c) :
    maxAbs (xs.map (fun x => x * c)) = maxAbs xs * c := by
  induction xs with
  | nil => simp [maxAbs]
  | cons x xs ih =>
    rw [List.map_cons, maxAbs_cons, maxAbs_cons, ih, abs_mul, abs_of_nonneg hc,
      max_mul_of_nonneg _ _ hc]

theorem maxAbs_le (xs : List ℝ) (b : ℝ) (hb : 0 ≤ b) (h : ∀ x ∈ xs, |x| ≤ b) :
    maxAbs xs ≤ b := by
  induction xs with
  | nil => exact hb
  | cons x xs ih =>
    rw [maxAbs_cons]
    exact max_le (h x (List.mem_cons_self _ _)) (ih fun y hy => h y (List.mem_cons_of_mem _ hy))

/-- C4: after the channel mean is subtracted, a peak above 0.7 is scaled to a
peak of exactly 0.7; a peak strictly between 0 and 0.1 is scaled to a peak of
exactly 0.3; a peak in [0.1, 0.7] leaves normalization a no-op; afterwards
`tanh(x * 0.9) * 0.85` is applied to every sample if and only if the
resulting absolute maximum exceeds 0.95. -/
theorem process_channel_spec (channelData : List ℝ) :
    (NORMALIZATION_HIGH_THRESHOLD < maxAbs (dcRemove channelData) →
        maxAbs (normalizeChannel (dcRemove channelData)) = NORMALIZATION_HIGH_THRESHOLD)
    ∧ (0 < maxAbs (dcRemove channelData) →
        maxAbs (dcRemove channelData) < NORMALIZATION_LOW_THRESHOLD →
        maxAbs (normalizeChannel (dcRemove channelData)) = NORMALIZATION_BOOST_TARGET)
    ∧ (NORMALIZATION_LOW_THRESHOLD ≤ maxAbs (dcRemove channelData) →
        maxAbs (dcRemove channelData) ≤ NORMALIZATION_HIGH_THRESHOLD →
        normalizeChannel (dcRemove channelData) = dcRemove channelData)
    ∧ processChannel channelData
        = (if SOFT_LIMIT_THRESHOLD < maxAbs (normalizeChannel (dcRemove channelData))
           then (normalizeChannel (dcRemove channelData)).map
                  (fun x => Real.tanh (x * 0.9) * 0.85)
           else normalizeChannel (dcRemove channelData)) := by
  refine ⟨?_, ?_, ?_, ?_⟩
  · intro h
    have hpos : (0 : ℝ) < maxAbs (dcRemove channelData) := by
      refine lt_trans ?_ h
      norm_num [NORMALIZATION_HIGH_THRESHOLD]
    simp only [normalizeChannel]
    rw [if_pos h]
    rw [maxAbs_map_mul _ _ (div_nonneg (by norm_num [NORMALIZATION_HIGH_THRESHOLD])
      (maxAbs_nonneg _))]
    rw [mul_comm, div_mul_cancel₀ _ (ne_of_gt hpos)]
  · intro h0 hlow
    have hnot : ¬NORMALIZATION_HIGH_THRESHOLD < maxAbs (dcRemove channelData) := by
      refine not_lt.2 (le_trans hlow.le ?_)
      norm_num [NORMALIZATION_HIGH_THRESHOLD, NORMALIZATION_LOW_THRESHOLD]
    simp only [normalizeChannel]
    rw [if_neg hnot, if_pos ⟨h0, hlow⟩]
    rw [maxAbs_map_mul _ _ (div_nonneg (by norm_num [NORMALIZATION_BOOST_TARGET])
      (maxAbs_nonneg _))]
    rw [mul_comm, div_mul_cancel₀ _ (ne_of_gt h0)]
  · intro h1 h2
    simp only [normalizeChannel]
    rw [if_neg (not_lt.2 h2), if_neg ?_]
    rintro ⟨_, hl⟩
    exact absurd h1 (not_le.2 hl)
  · rw [processChannel, softLimit]

/-- Witness for C4 at the channel [2, 0]: the DC-removed channel is [1, -1]
with peak 1 > 0.7, and normalization brings its peak to exactly 0.7. -/
theorem process_channel_spec_witness :
    maxAbs (normalizeChannel (dcRemove [2, 0])) = NORMALIZATION_HIGH_THRESHOLD := by
  have h1 : dcRemove [(2 : ℝ), 0] = [1, -1] := by
    norm_num [dcRemove]
  have h2 : maxAbs [(1 : ℝ), -1] = 1 := by
    rw [maxAbs_cons, maxAbs_cons, maxAbs_nil]
    rw [abs_one, abs_neg, abs_one, max_eq_left zero_le_one, max_self]
  exact (process_channel_spec [2, 0]).1
    (by rw [h1, h2]; norm_num [NORMALIZATION_HIGH_THRESHOLD])

theorem abs_tanh_le_one (x : ℝ) : |Real.tanh x| ≤ 1 := by
  rw [Real.tanh_eq_sinh_div_cosh, abs_div, abs_of_pos (Real.cosh_pos x)]
  rw [div_le_one (Real.cosh_pos x)]
  rw [Real.abs_sinh]
  exact le_trans (Real.sinh_lt_cosh _).le (Real.cosh_abs x).le

theorem tanh_lt_tanh_of_lt (a b : ℝ) (h : a < b) : Real.tanh a < Real.tanh b := by
  rw [Real.tanh_eq_sinh_div_cosh, Real.tanh_eq_sinh_div_cosh]
  rw [div_lt_div_iff₀ (Real.cosh_pos a) (Real.cosh_pos b)]
  have hs : 0 < Real.sinh (b - a) := Real.sinh_pos_iff.2 (by linarith)
  have key : 0 < Real.sinh b * Real.cosh a - Real.cosh b * Real.sinh a := by
    rw [← Real.sinh_sub]
    exact hs
  have hcomm : Real.sinh a * Real.cosh b = Real.cosh b * Real.sinh a := mul_comm _ _
  linarith

theorem tanh_le_tanh_of_le (a b : ℝ) (h : a ≤ b) : Real.tanh a ≤ Real.tanh b := by
  rcases eq_or_lt_of_le h with rfl | hlt
  · exact le_refl _
  · exact (tanh_lt_tanh_of_lt a b hlt).le

theorem tanh_pos_of_pos (x : ℝ) (h : 0 < x) : 0 < Real.tanh x := by
  have := tanh_lt_tanh_of_lt 0 x h
  rwa [Real.tanh_zero] at this

theorem tanh_neg_of_neg (x : ℝ) (h : x < 0) : Real.tanh x < 0 := by
  have := tanh_lt_tanh_of_lt x 0 h
  rwa [Real.tanh_zero] at this

/-- C5: when the volume-scaled, mic-boosted sum has a peak above 1.0,
`mix_audio` applies the soft limiter `tanh(mixed * 0.85)`; the post-limiter
peak is at most 1.0; the limiter is monotonic with input loudness and flips
no sample's sign. -/
theorem mix_audio_soft_limiter (micAudio desktopAudio : List Int)
    (micVolume desktopVolume micBoost : ℝ)
    (hlen : micAudio.length = desktopAudio.length)
    (hpeak : 1 < maxAbs (mixedSignal micAudio desktopAudio micVolume desktopVolume micBoost)) :
    mix_audio micAudio desktopAudio micVolume desktopVolume micBoost
        = ((mixedSignal micAudio desktopAudio micVolume desktopVolume micBoost).map
            (fun x => Real.tanh (x * 0.85))).map (fun x => truncToInt (x * 32767))
    ∧ maxAbs ((mixedSignal micAudio desktopAudio micVolume desktopVolume micBoost).map
            (fun x => Real.tanh (x * 0.85))) ≤ 1
    ∧ (∀ x y : ℝ, x ≤ y → Real.tanh (x * 0.85) ≤ Real.tanh (y * 0.85))
    ∧ (∀ x : ℝ, (0 < x → 0 < Real.tanh (x * 0.85))
        ∧ (x < 0 → Real.tanh (x * 0.85) < 0)
        ∧ (x = 0 → Real.tanh (x * 0.85) = 0)) := by
  refine ⟨?_, ?_, ?_, ?_⟩
  · rw [mix_audio]
    rw [if_pos hpeak]
  · refine maxAbs_le _ _ zero_le_one ?_
    intro y hy
    rcases List.mem_map.1 hy with ⟨x, _, rfl⟩
    exact abs_tanh_le_one _
  · intro x y hxy
    exact tanh_le_tanh_of_le _ _ (mul_le_mul_of_nonneg_right hxy (by norm_num))
  · intro x
    refine ⟨?_, ?_, ?_⟩
    · intro hx
      exact tanh_pos_of_pos _ (mul_pos hx (by norm_num))
    · intro hx
      exact tanh_neg_of_neg _ (mul_neg_of_neg_of_pos hx (by norm_num))
    · intro hx
      rw [hx, zero_mul, Real.tanh_zero]

/-- Witness for C5: mixing a half-scale mic sample (boosted to 1.0) with a
half-scale desktop sample gives an unclamped peak of 1.5 > 1, and the
post-limiter peak is at most 1. -/
theorem mix_audio_soft_limiter_witness :
    maxAbs ((mixedSignal [16384] [16384] 1 1 2).map (fun x => Real.tanh (x * 0.85))) ≤ 1 := by
  have hmix : mixedSignal [16384] [16384] 1 1 2 = [3 / 2] := by
    norm_num [mixedSignal]
  exact (mix_audio_soft_limiter [16384] [16384] 1 1 2 rfl
    (by rw [hmix, maxAbs_cons, maxAbs_nil]; rw [abs_of_nonneg (by norm_num)]; norm_num)).2.1

end MeetingTranscriber
